import Mathlib

/-!
# docengine_cli: the command-line driver of the document engine

A shallow embedding of `src/docengine_cli.cpp`: the result serializer
`OutputRecognitionResult` and `main`, run against a recognition engine that is
a parameter (the engine library is an external, closed collaborator).

* C strings are lists of `char`s (the bytes before the terminating NUL).
* `printf` appends to the standard output held in the `World`.
* An engine exception (`se::common::BaseException`) carries its `what()` text.
* Every engine call `main` makes is appended to the call log of the `World`.
* The release of the owned handles at scope exit and the console code page
  call of the Windows build leave no trace in the `World` and are left out.
-/

namespace DocEngineCli

/-- A NUL-terminated C string: the `char`s before the terminator. -/
abbrev CStr := List Char

/-! ## Result objects handed out by the engine -/

/-- One position of the text-field iterator `f_it` of a document: what
`f_it.GetKey()` and `f_it.GetField().GetOcrString().GetFirstString().GetCStr()`
yield, a C string or a thrown engine exception (its message). -/
structure TextField where
  GetKey : Except CStr CStr
  GetFirstString : Except CStr CStr

/-- A recognized document (`se::doc::Document`): attribute lookup by name, which
yields a C string or throws, and the text fields in the iteration order
`TextFieldsBegin() .. TextFieldsEnd()`. -/
structure Document where
  GetAttribute : CStr → Except CStr CStr
  TextFields : List TextField

/-- A recognition result (`se::doc::DocResult`): its documents, in the iteration
order that starts at `DocumentsBegin()`. -/
structure DocResult where
  Documents : List Document

/-- The number of documents of the result, `GetDocumentsCount()`. -/
def DocResult.GetDocumentsCount (r : DocResult) : Int := r.Documents.length

/-- A text field both of whose reads succeed. -/
def TextField.ofPair (kv : CStr × CStr) : TextField :=
  ⟨Except.ok kv.1, Except.ok kv.2⟩

/-! ## Engine calls and the world -/

/-- The engine calls `main` makes. Each object (engine, session settings,
session, processing settings, image) exists once, so a call names its method
and arguments only. -/
inductive Call where
  | GetVersion
  | Create (config_path : CStr) (lazy_init : Bool)
  | CreateSessionSettings
  | SetCurrentMode (mode : CStr)
  | AddEnabledDocumentTypes (mask : CStr)
  | SpawnSession (signature : CStr)
  | CreateProcessingSettings
  | FromFile (image_path : CStr)
  | RegisterImage
  | SetCurrentSourceID (id : Int)
  | Process
  | GetCurrentResult
  deriving DecidableEq

/-- The external engine, a deterministic black box: what a call does may depend
on every call made before it (the first argument is that history).
`throws h c` is the message of the exception call `c` raises after history
`h`, if it raises one; `RegisterImage h` is the image identifier returned and
`GetCurrentResult h` the result handed out when the call returns. -/
structure Engine where
  GetVersion : CStr
  throws : List Call → Call → Option CStr
  RegisterImage : List Call → Int
  GetCurrentResult : List Call → DocResult

/-- The observable state: what has been written to standard output and the
engine calls made so far. -/
structure World where
  stdout : CStr
  calls : List Call

/-- A C++ computation: runs on a world, and either returns a value or
propagates an engine exception, in both cases with the world it reached. -/
def Prog (α : Type) : Type := World → Except CStr α × World

/-- Sequencing: an exception raised by the first computation skips the rest. -/
def Prog.bind {α β : Type} (m : Prog α) (f : α → Prog β) : Prog β := fun w =>
  match m w with
  | (Except.ok a, w1) => f a w1
  | (Except.error e, w1) => (Except.error e, w1)

/-- Return a value, leaving the world as it is. -/
def Prog.pure {α : Type} (a : α) : Prog α := fun w => (Except.ok a, w)

instance : Monad Prog where
  pure := Prog.pure
  bind := Prog.bind

/-- Writing text to standard output; `%s` arguments are already spliced in. -/
def printf (text : CStr) : Prog Unit := fun w =>
  (Except.ok (), { w with stdout := w.stdout ++ text })

/-- Reading from a result object: the value, or the exception propagates. -/
def read {α : Type} (x : Except CStr α) : Prog α := fun w => (x, w)

/-- An engine call without a result: logged, and it returns or throws as the
engine decides from the history. -/
def engineCall (E : Engine) (c : Call) : Prog Unit := fun w =>
  match E.throws w.calls c with
  | some e => (Except.error e, { w with calls := w.calls ++ [c] })
  | none => (Except.ok (), { w with calls := w.calls ++ [c] })

/-- The call `session->RegisterImage(*image)`, returning the image identifier. -/
def RegisterImage (E : Engine) : Prog Int := fun w =>
  match E.throws w.calls Call.RegisterImage with
  | some e => (Except.error e, { w with calls := w.calls ++ [Call.RegisterImage] })
  | none =>
    (Except.ok (E.RegisterImage w.calls), { w with calls := w.calls ++ [Call.RegisterImage] })

/-- The call `session->GetCurrentResult()`. -/
def GetCurrentResult (E : Engine) : Prog DocResult := fun w =>
  match E.throws w.calls Call.GetCurrentResult with
  | some e => (Except.error e, { w with calls := w.calls ++ [Call.GetCurrentResult] })
  | none =>
    (Except.ok (E.GetCurrentResult w.calls),
      { w with calls := w.calls ++ [Call.GetCurrentResult] })

/-- The static call `se::doc::DocEngine::GetVersion()`. -/
def GetVersion (E : Engine) : Prog CStr := fun w =>
  (Except.ok E.GetVersion, { w with calls := w.calls ++ [Call.GetVersion] })

/-! ## The serializer -/

/-- The scan of `std::regex_replace` for a pattern that is one literal
character: every match is replaced by the format text, every other character is
copied to the output. -/
def regex_replace.go (c : Char) (fmt : CStr) : CStr → CStr → CStr
  | acc, [] => acc
  | acc, x :: xs =>
    if x = c then regex_replace.go c fmt (acc ++ fmt) xs
    else regex_replace.go c fmt (acc ++ [x]) xs

/-- The call `std::regex_replace(s, std::regex(c), fmt)` for a one-character
literal pattern `c` and a format text without `$`. -/
def regex_replace (s : CStr) (c : Char) (fmt : CStr) : CStr :=
  regex_replace.go c fmt [] s

/-- The local `escaped_value` of the field loop:
`std::regex_replace(value, std::regex("\""), "\\\"")`. -/
def escaped_value (value : CStr) : CStr :=
  regex_replace value '"' "\\\"".toList

/-- The field loop of `OutputRecognitionResult`, from iterator position `f_it`
to `TextFieldsEnd()`. -/
def OutputRecognitionResult.loop : List TextField → Prog Unit
  | [] => pure ()
  | f_it :: rest => do
    let value ← read f_it.GetFirstString
    let escaped := escaped_value value
    let key ← read f_it.GetKey
    printf (",\"".toList ++ key ++ "\": \"".toList ++ escaped ++ "\"".toList)
    OutputRecognitionResult.loop rest

/-- The first document of a result that has documents:
`DocumentsBegin().GetDocument()`. -/
def DocResult.DocumentsBegin (r : DocResult) (h : r.GetDocumentsCount ≠ 0) : Document :=
  r.Documents.head (fun hnil => h (by simp [DocResult.GetDocumentsCount, hnil]))

/-- The function `OutputRecognitionResult(recog_result)`. -/
def OutputRecognitionResult (recog_result : DocResult) : Prog Unit :=
  if h : recog_result.GetDocumentsCount = 0 then
    printf "\x7b\x7d\n".toList
  else
    let doc := recog_result.DocumentsBegin h
    do
      let type ← read (doc.GetAttribute "type".toList)
      printf ("\x7b\"DOCTYPE\": \"".toList ++ type ++ "\"".toList)
      OutputRecognitionResult.loop doc.TextFields
      printf "\x7d\n".toList

/-! ## main -/

/-- The body of the `try` block of `main`. -/
def tryBlock (E : Engine) (signature : CStr) (argc : Int) (argv : Nat → CStr) :
    Prog Unit :=
  let image_path := argv 1
  let config_path := argv 2
  let document_types := if argc ≥ 4 then argv 3 else "*".toList
  do
    engineCall E (Call.Create config_path true)
    engineCall E Call.CreateSessionSettings
    engineCall E (Call.SetCurrentMode "universal".toList)
    engineCall E (Call.AddEnabledDocumentTypes document_types)
    engineCall E (Call.SpawnSession signature)
    engineCall E Call.CreateProcessingSettings
    engineCall E (Call.FromFile image_path)
    let image_id ← RegisterImage E
    engineCall E (Call.SetCurrentSourceID image_id)
    engineCall E Call.Process
    let result ← GetCurrentResult E
    OutputRecognitionResult result

/-- What a run of the process leaves behind: the value `main` returned, the
standard output and the engine calls made. -/
structure Run where
  status : Int
  stdout : CStr
  calls : List Call

/-- The function `main(argc, argv)`; `argv i` is the C string `argv[i]`, for the
indices the code reads (`argv[0]` is the program name, as the hosted
environment passes it). `signature` is the personalized signature the source
leaves as a placeholder in the `SpawnSession` call. The engine raises
exceptions of the `se::common::BaseException` family only. The process starts
with empty output and no calls, and the value returned is the exit status. -/
def main (E : Engine) (signature : CStr) (argc : Int) (argv : Nat → CStr) : Run :=
  let start : World := ⟨[], []⟩
  if argc ≠ 3 ∧ argc ≠ 4 then
    let usage : Prog Unit := do
      let version ← GetVersion E
      printf ("Version ".toList ++ version ++ ". Usage: ".toList ++ argv 0 ++
        " <image_path> <bundle_zip_path> [document_types]\n".toList)
    let w := (usage start).2
    ⟨-1, w.stdout, w.calls⟩
  else
    match tryBlock E signature argc argv start with
    | (Except.ok _, w) => ⟨0, w.stdout, w.calls⟩
    | (Except.error e, w) =>
      let w1 := (printf ("Exception thrown: ".toList ++ e ++ "\n".toList) w).2
      ⟨-1, w1.stdout, w1.calls⟩

/-! ## Specification vocabulary -/

/-- The escaping the specification describes: every double quote becomes the two
characters backslash and double quote, every other character stays. -/
def escapeQuotes (value : CStr) : CStr :=
  value.flatMap (fun ch => if ch = '"' then ['\\', '"'] else [ch])

/-- Undoing the escaping: the backslash right before a double quote is deleted. -/
def unescapeQuotes : CStr → CStr
  | '\\' :: '"' :: rest => '"' :: unescapeQuotes rest
  | ch :: rest => ch :: unescapeQuotes rest
  | [] => []

/-- The opening of the one-document object, up to the document type. -/
def jsonHeader (type : CStr) : CStr :=
  "\x7b\"DOCTYPE\": \"".toList ++ type ++ "\"".toList

/-- The member emitted for one text field, with its leading comma. -/
def jsonMember (kv : CStr × CStr) : CStr :=
  ",\"".toList ++ kv.1 ++ "\": \"".toList ++ escapeQuotes kv.2 ++ "\"".toList

/-- The one-document object as a brace-enclosed list of members joined by the
separator `sep`: the `DOCTYPE` member, then one member per field. -/
def objectText (sep : CStr) (type : CStr) (fields : List (CStr × CStr)) : CStr :=
  "\x7b".toList ++
    sep.intercalate (("\"DOCTYPE\": \"".toList ++ type ++ "\"".toList) ::
      fields.map (fun kv =>
        "\"".toList ++ kv.1 ++ "\": \"".toList ++ escapeQuotes kv.2 ++ "\"".toList)) ++
    "\x7d\n".toList

/-! ## Sample data -/

/-- A document of type `passport` with the single text field name=JOHN. -/
def passportDoc : Document where
  GetAttribute := fun name =>
    if name = "type".toList then Except.ok "passport".toList
    else Except.error "no such attribute".toList
  TextFields := [TextField.ofPair ("name".toList, "JOHN".toList)]

/-- A document of type `visa` with two text fields. -/
def visaDoc : Document where
  GetAttribute := fun name =>
    if name = "type".toList then Except.ok "visa".toList
    else Except.error "no such attribute".toList
  TextFields := [TextField.ofPair ("number".toList, "X1".toList),
    TextField.ofPair ("holder".toList, "SECRET".toList)]


/-! ## Vocabulary for the runs of main -/

/-- The engine calls of a run with three or four arguments, in order: the
specification's sequence, the source identifier being the one the engine
returns on `RegisterImage` after the seven calls before it. -/
def callSequence (E : Engine) (signature : CStr) (argc : Int) (argv : Nat → CStr) :
    List Call :=
  let setup : List Call :=
    [Call.Create (argv 2) true, Call.CreateSessionSettings,
      Call.SetCurrentMode "universal".toList,
      Call.AddEnabledDocumentTypes (if argc = 4 then argv 3 else "*".toList),
      Call.SpawnSession signature, Call.CreateProcessingSettings, Call.FromFile (argv 1)]
  setup ++ [Call.RegisterImage, Call.SetCurrentSourceID (E.RegisterImage setup),
    Call.Process, Call.GetCurrentResult]

/-- The session's current result of such a run: what `GetCurrentResult` hands
out after the ten calls before it. -/
def currentResult (E : Engine) (signature : CStr) (argc : Int) (argv : Nat → CStr) :
    DocResult :=
  E.GetCurrentResult ((callSequence E signature argc argv).take 10)

/-- The message of the first exception the engine raises when the calls `cs` are
made in order after the history `h`, if one of them throws. -/
def Engine.firstThrow (E : Engine) : List Call → List Call → Option CStr
  | _, [] => none
  | h, c :: cs =>
    match E.throws h c with
    | some e => some e
    | none => E.firstThrow (h ++ [c]) cs

/-- The message of the first exception among the reads of the text fields, each
field being read for its first OCR string and then its key. -/
def fieldsThrow : List TextField → Option CStr
  | [] => none
  | f :: rest =>
    match f.GetFirstString, f.GetKey with
    | Except.error e, _ => some e
    | Except.ok _, Except.error e => some e
    | Except.ok _, Except.ok _ => fieldsThrow rest

/-- The message of the first exception among the reads that serializing the
result takes: the `type` attribute of the first document, then its text fields. -/
def DocResult.readThrow (r : DocResult) : Option CStr :=
  match r.Documents with
  | [] => none
  | doc :: _ =>
    match doc.GetAttribute "type".toList with
    | Except.error e => some e
    | Except.ok _ => fieldsThrow doc.TextFields

/-- The message of the first exception an engine call raises in a run with three
or four arguments: in the call sequence, or else while the result is read. -/
def raised (E : Engine) (signature : CStr) (argc : Int) (argv : Nat → CStr) :
    Option CStr :=
  match E.firstThrow [] (callSequence E signature argc argv) with
  | some e => some e
  | none => (currentResult E signature argc argv).readThrow

/-- The line the exception handler of `main` prints. -/
def exceptionLine (msg : CStr) : CStr :=
  "Exception thrown: ".toList ++ msg ++ "\n".toList

/-- The argument vector holding the given strings. -/
def argvOf (args : List String) : Nat → CStr := fun i => (args.getD i "").toList

/-- An engine that never throws, registers the image as number 7 and hands out
the result `r`. -/
def quietEngine (r : DocResult) : Engine where
  GetVersion := "2.1.0".toList
  throws := fun _ _ => none
  RegisterImage := fun _ => 7
  GetCurrentResult := fun _ => r

/-- An engine whose `Create` rejects the bundle and that otherwise behaves as
`quietEngine`. -/
def rejectingEngine (r : DocResult) : Engine where
  GetVersion := "2.1.0".toList
  throws := fun _ c =>
    match c with
    | Call.Create _ _ => some "bad bundle".toList
    | _ => none
  RegisterImage := fun _ => 7
  GetCurrentResult := fun _ => r

/-- A document of type `passport` whose first field reads as name=JOHN and
whose second field throws when its first OCR string is read. -/
def brokenDoc : Document where
  GetAttribute := fun name =>
    if name = "type".toList then Except.ok "passport".toList
    else Except.error "no such attribute".toList
  TextFields := [TextField.ofPair ("name".toList, "JOHN".toList),
    ⟨Except.ok "number".toList, Except.error "bad field".toList⟩]

/-! ## Lemmas on the computation monad -/

theorem printf_bind {β : Type} (text : CStr) (f : Unit → Prog β) (w : World) :
    (printf text >>= f) w = f () { w with stdout := w.stdout ++ text } := rfl

theorem read_ok_bind {α β : Type} (a : α) (f : α → Prog β) (w : World) :
    (read (Except.ok a) >>= f) w = f a w := rfl

theorem read_error_bind {α β : Type} (e : CStr) (f : α → Prog β) (w : World) :
    (read (Except.error e : Except CStr α) >>= f) w = (Except.error e, w) := rfl

theorem bind_of_ok {α β : Type} (m : Prog α) (f : α → Prog β) (w w1 : World) (a : α)
    (h : m w = (Except.ok a, w1)) : (m >>= f) w = f a w1 := by
  show Prog.bind m f w = f a w1
  simp [Prog.bind, h]

theorem bind_of_error {α β : Type} (m : Prog α) (f : α → Prog β) (w w1 : World) (e : CStr)
    (h : m w = (Except.error e, w1)) : (m >>= f) w = (Except.error e, w1) := by
  show Prog.bind m f w = (Except.error e, w1)
  simp [Prog.bind, h]

/-! ## The escaping -/

theorem regex_replace_go_eq (c : Char) (fmt : CStr) (s : CStr) :
    ∀ acc : CStr, regex_replace.go c fmt acc s =
      acc ++ s.flatMap (fun x => if x = c then fmt else [x]) := by
  induction s with
  | nil => intro acc; simp [regex_replace.go]
  | cons x xs ih =>
    intro acc
    by_cases hx : x = c
    · simp [regex_replace.go, hx, ih]
    · simp [regex_replace.go, hx, ih]

theorem escaped_value_eq (value : CStr) : escaped_value value = escapeQuotes value := by
  simp [escaped_value, regex_replace, regex_replace_go_eq, escapeQuotes]

theorem escapeQuotes_cons (ch : Char) (rest : CStr) :
    escapeQuotes (ch :: rest) =
      (if ch = '"' then ['\\', '"'] else [ch]) ++ escapeQuotes rest := by
  simp [escapeQuotes]

theorem escapeQuotes_no_quote (value : CStr) (h : '"' ∉ value) :
    escapeQuotes value = value := by
  induction value with
  | nil => rfl
  | cons ch rest ih =>
    have hch : ch ≠ '"' := fun hc => h (by simp [hc])
    have hrest : '"' ∉ rest := fun hc => h (by simp [hc])
    simp [escapeQuotes_cons, hch, ih hrest]

theorem escapeQuotes_head (value : CStr) : (escapeQuotes value).head? ≠ some '"' := by
  cases value with
  | nil => simp [escapeQuotes]
  | cons ch rest =>
    by_cases hch : ch = '"'
    · simp [escapeQuotes_cons, hch]
    · simp [escapeQuotes_cons, hch]

theorem unescapeQuotes_cons_of_head (ch : Char) (s : CStr) (h : s.head? ≠ some '"') :
    unescapeQuotes (ch :: s) = ch :: unescapeQuotes s := by
  cases s with
  | nil => simp [unescapeQuotes]
  | cons x xs =>
    have hx : x ≠ '"' := by simpa using h
    rw [unescapeQuotes]
    intro rest _ hrest
    simp at hrest
    exact hx hrest.1

theorem unescape_escape (value : CStr) : unescapeQuotes (escapeQuotes value) = value := by
  induction value with
  | nil => simp [escapeQuotes, unescapeQuotes]
  | cons ch rest ih =>
    by_cases hch : ch = '"'
    · simp [escapeQuotes_cons, hch, unescapeQuotes, ih]
    · simp only [escapeQuotes_cons, hch, if_false, List.singleton_append]
      rw [unescapeQuotes_cons_of_head ch _ (escapeQuotes_head rest), ih]

/-! ## The serializer on results whose reads succeed -/

theorem output_nil (r : DocResult) (hdocs : r.Documents = []) :
    OutputRecognitionResult r = printf "\x7b\x7d\n".toList := by
  have hcount : r.GetDocumentsCount = 0 := by simp [DocResult.GetDocumentsCount, hdocs]
  simp only [OutputRecognitionResult, hcount, dif_pos]

theorem output_cons (r : DocResult) (doc : Document) (later : List Document)
    (hdocs : r.Documents = doc :: later) :
    OutputRecognitionResult r = (do
      let type ← read (doc.GetAttribute "type".toList)
      printf ("\x7b\"DOCTYPE\": \"".toList ++ type ++ "\"".toList)
      OutputRecognitionResult.loop doc.TextFields
      printf "\x7d\n".toList) := by
  obtain ⟨docs⟩ := r
  simp only at hdocs
  subst hdocs
  have hcount : ¬ (DocResult.mk (doc :: later)).GetDocumentsCount = 0 := by
    simp only [DocResult.GetDocumentsCount, List.length_cons]
    omega
  simp only [OutputRecognitionResult, hcount, dif_neg, not_false_eq_true]
  rfl

theorem loop_ofPair (fields : List (CStr × CStr)) :
    ∀ w : World, OutputRecognitionResult.loop (fields.map TextField.ofPair) w =
      (Except.ok (), { w with stdout := w.stdout ++ (fields.map jsonMember).flatten }) := by
  induction fields with
  | nil => intro w; simp [OutputRecognitionResult.loop]; rfl
  | cons kv rest ih =>
    intro w
    simp only [List.map_cons, OutputRecognitionResult.loop, TextField.ofPair, read_ok_bind,
      printf_bind]
    rw [ih]
    simp [jsonMember, escaped_value_eq]

theorem output_of_reads (r : DocResult) (doc : Document) (later : List Document)
    (type : CStr) (fields : List (CStr × CStr)) (w : World)
    (hdocs : r.Documents = doc :: later)
    (htype : doc.GetAttribute "type".toList = Except.ok type)
    (hfields : doc.TextFields = fields.map TextField.ofPair) :
    OutputRecognitionResult r w =
      (Except.ok (), { w with stdout :=
        w.stdout ++ (jsonHeader type ++ (fields.map jsonMember).flatten ++ "\x7d\n".toList) }) := by
  rw [output_cons r doc later hdocs]
  simp only [htype, hfields, read_ok_bind, printf_bind]
  rw [bind_of_ok _ _ _ _ _ (loop_ofPair fields _)]
  simp [printf, jsonHeader]

theorem output_no_documents_aux (r : DocResult) (w : World) (hdocs : r.Documents = []) :
    OutputRecognitionResult r w =
      (Except.ok (), { w with stdout := w.stdout ++ "\x7b\x7d\n".toList }) := by
  rw [output_nil r hdocs]
  rfl

theorem intercalate_cons (sep : CStr) (ms : List CStr) :
    ∀ m : CStr, sep.intercalate (m :: ms) = m ++ (ms.map (fun x => sep ++ x)).flatten := by
  induction ms with
  | nil => intro m; simp [List.intercalate]
  | cons x xs ih =>
    intro m
    have h := ih x
    simp only [List.intercalate] at h ⊢
    simp [List.intersperse, h]

/-! ## The claims on the serializer -/

/-- C1: for a result with at least one document, whose first document has type
`type` and text fields `fields` (keys and first OCR strings, in iteration order),
`OutputRecognitionResult` returns normally and appends to standard output exactly
the header with the type, one member with a leading comma and no space per
field, in order, and the closing brace with a newline; there are as many members
as text fields. -/
theorem output_one_document (r : DocResult) (doc : Document) (later : List Document)
    (type : CStr) (fields : List (CStr × CStr)) (w : World)
    (hdocs : r.Documents = doc :: later)
    (htype : doc.GetAttribute "type".toList = Except.ok type)
    (hfields : doc.TextFields = fields.map TextField.ofPair) :
    OutputRecognitionResult r w =
        (Except.ok (), { w with stdout :=
          w.stdout ++ ("\x7b\"DOCTYPE\": \"".toList ++ type ++ "\"".toList ++
            (fields.map (fun kv => ",\"".toList ++ kv.1 ++ "\": \"".toList ++
              escapeQuotes kv.2 ++ "\"".toList)).flatten ++ "\x7d\n".toList) }) ∧
      (fields.map (fun kv => ",\"".toList ++ kv.1 ++ "\": \"".toList ++
        escapeQuotes kv.2 ++ "\"".toList)).length = doc.TextFields.length := by
  refine ⟨?_, by simp [hfields]⟩
  rw [output_of_reads r doc later type fields w hdocs htype hfields]
  rfl

/-- C1, the sample of the specification: type `passport` with name=JOHN. -/
theorem output_one_document_witness :
    OutputRecognitionResult ⟨[passportDoc]⟩ ⟨[], []⟩ =
      (Except.ok (), ⟨"\x7b\"DOCTYPE\": \"passport\",\"name\": \"JOHN\"\x7d\n".toList, []⟩) :=
  (output_one_document ⟨[passportDoc]⟩ passportDoc [] "passport".toList
    [("name".toList, "JOHN".toList)] ⟨[], []⟩ rfl rfl rfl).1

/-- C2: the escaped value the field loop emits is the value with every double
quote replaced by backslash and double quote and every other character kept in
place; a value without a double quote is emitted unchanged; and this is the text
the loop prints between the quotes of the member. -/
theorem escaped_value_spec (key value : CStr) (w : World) :
    escaped_value value =
        value.flatMap (fun ch => if ch = '"' then ['\\', '"'] else [ch]) ∧
      ('"' ∉ value → escaped_value value = value) ∧
      OutputRecognitionResult.loop [⟨Except.ok key, Except.ok value⟩] w =
        (Except.ok (), { w with stdout := w.stdout ++ (",\"".toList ++ key ++ "\": \"".toList ++
          value.flatMap (fun ch => if ch = '"' then ['\\', '"'] else [ch]) ++ "\"".toList) }) := by
  refine ⟨escaped_value_eq value, fun h => ?_, ?_⟩
  · rw [escaped_value_eq]; exact escapeQuotes_no_quote value h
  · have h := loop_ofPair [(key, value)] w
    simpa [jsonMember, escapeQuotes, TextField.ofPair] using h

/-- C2, the sample of the specification: `J"OHN` is emitted as `J\"OHN`, and
`JOHN` unchanged. -/
theorem escaped_value_spec_witness :
    escaped_value "J\"OHN".toList = "J\\\"OHN".toList ∧
      escaped_value "JOHN".toList = "JOHN".toList :=
  ⟨(escaped_value_spec [] "J\"OHN".toList ⟨[], []⟩).1.trans (by decide),
    (escaped_value_spec [] "JOHN".toList ⟨[], []⟩).2.1 (by decide)⟩

/-- C3: for a result whose document count is zero, `OutputRecognitionResult`
returns normally and appends exactly an opening brace, a closing brace and a
newline to standard output, from every world. -/
theorem output_no_documents (r : DocResult) (w : World) (hcount : r.GetDocumentsCount = 0) :
    OutputRecognitionResult r w =
      (Except.ok (), { w with stdout := w.stdout ++ "\x7b\x7d\n".toList }) := by
  have hdocs : r.Documents = [] := by
    simpa [DocResult.GetDocumentsCount] using hcount
  exact output_no_documents_aux r w hdocs

/-- C3 on the empty result, from the empty world. -/
theorem output_no_documents_witness :
    OutputRecognitionResult ⟨[]⟩ ⟨[], []⟩ = (Except.ok (), ⟨"\x7b\x7d\n".toList, []⟩) :=
  output_no_documents ⟨[]⟩ ⟨[], []⟩ rfl

/-- C6, refuted as stated: for type `passport` with name=JOHN the text written
has no space after the comma that separates the members, so it is not the
object whose members are joined by a comma and a space. -/
theorem comma_space_counterexample :
    objectText ", ".toList "passport".toList [("name".toList, "JOHN".toList)] =
        "\x7b\"DOCTYPE\": \"passport\", \"name\": \"JOHN\"\x7d\n".toList ∧
      (OutputRecognitionResult ⟨[passportDoc]⟩ ⟨[], []⟩).2.stdout =
        "\x7b\"DOCTYPE\": \"passport\",\"name\": \"JOHN\"\x7d\n".toList ∧
      (OutputRecognitionResult ⟨[passportDoc]⟩ ⟨[], []⟩).2.stdout ≠
        objectText ", ".toList "passport".toList [("name".toList, "JOHN".toList)] := by
  decide

/-- C6, amended: in the one-document shape the members of the object are
separated by a comma alone: the text appended for a document of type `type` with
fields `fields` is the brace-enclosed list of the `DOCTYPE` member and the field
members joined by `,`, followed by a newline. -/
theorem output_comma_separated (r : DocResult) (doc : Document) (later : List Document)
    (type : CStr) (fields : List (CStr × CStr)) (w : World)
    (hdocs : r.Documents = doc :: later)
    (htype : doc.GetAttribute "type".toList = Except.ok type)
    (hfields : doc.TextFields = fields.map TextField.ofPair) :
    OutputRecognitionResult r w =
      (Except.ok (), { w with stdout := w.stdout ++ objectText ",".toList type fields }) := by
  rw [output_of_reads r doc later type fields w hdocs htype hfields]
  have hjoin : (fields.map jsonMember).flatten =
      ((fields.map (fun kv => "\"".toList ++ kv.1 ++ "\": \"".toList ++
        escapeQuotes kv.2 ++ "\"".toList)).map (fun x => ",".toList ++ x)).flatten := by
    congr 1
    simp [List.map_map, jsonMember, Function.comp_def]
  simp only [objectText, intercalate_cons, jsonHeader, hjoin]
  simp

/-- C6 amended, on two fields: a comma and no space between the members. -/
theorem output_comma_separated_witness :
    OutputRecognitionResult ⟨[visaDoc]⟩ ⟨[], []⟩ =
      (Except.ok (),
        ⟨("\x7b\"DOCTYPE\": \"visa\",\"number\": \"X1\"," ++
          "\"holder\": \"SECRET\"\x7d\n").toList, []⟩) :=
  output_comma_separated ⟨[visaDoc]⟩ visaDoc [] "visa".toList
    [("number".toList, "X1".toList), ("holder".toList, "SECRET".toList)] ⟨[], []⟩ rfl rfl rfl

/-- C7: two results that each have at least one document, and whose first
documents have the same `type` attribute and the same sequence of text fields,
are serialized alike from every world: the documents after the first, and the
other attributes of the first, have no influence on the outcome or the output. -/
theorem first_document_only (r1 r2 : DocResult) (d1 d2 : Document)
    (later1 later2 : List Document) (w : World)
    (h1 : r1.Documents = d1 :: later1) (h2 : r2.Documents = d2 :: later2)
    (htype : d1.GetAttribute "type".toList = d2.GetAttribute "type".toList)
    (hfields : d1.TextFields = d2.TextFields) :
    OutputRecognitionResult r1 w = OutputRecognitionResult r2 w := by
  rw [output_cons r1 d1 later1 h1, output_cons r2 d2 later2 h2, htype, hfields]

/-- C7 on a two-document result: the second document leaves no trace. -/
theorem first_document_only_witness :
    OutputRecognitionResult ⟨[passportDoc, visaDoc]⟩ ⟨[], []⟩ =
        OutputRecognitionResult ⟨[passportDoc]⟩ ⟨[], []⟩ ∧
      (OutputRecognitionResult ⟨[passportDoc, visaDoc]⟩ ⟨[], []⟩).2.stdout =
        "\x7b\"DOCTYPE\": \"passport\",\"name\": \"JOHN\"\x7d\n".toList :=
  ⟨first_document_only ⟨[passportDoc, visaDoc]⟩ ⟨[passportDoc]⟩ passportDoc passportDoc
    [visaDoc] [] ⟨[], []⟩ rfl rfl rfl rfl, by decide⟩

/-- C10: the escaping of the field loop is injective, and deleting the backslash
right before each double quote of the escaped form gives the value back,
backslashes of the value included. -/
theorem escaped_value_injective (a b : CStr) :
    (escaped_value a = escaped_value b → a = b) ∧
      unescapeQuotes (escaped_value a) = a := by
  refine ⟨fun h => ?_, by rw [escaped_value_eq, unescape_escape]⟩
  have h2 := congrArg unescapeQuotes h
  simpa [escaped_value_eq, unescape_escape] using h2

/-- C10 on the values backslash-quote and quote: different escaped forms, and the
first is recovered from its escaped form. -/
theorem escaped_value_injective_witness :
    escaped_value "\\\"".toList ≠ escaped_value "\"".toList ∧
      escaped_value "\\\"".toList = "\\\\\"".toList ∧
      unescapeQuotes (escaped_value "\\\"".toList) = "\\\"".toList :=
  ⟨fun h => absurd ((escaped_value_injective "\\\"".toList "\"".toList).1 h) (by decide),
    by decide, (escaped_value_injective "\\\"".toList []).2⟩


/-! ## The run of main -/

theorem engineCall_bind {β : Type} (E : Engine) (c : Call) (f : Unit → Prog β) (w : World) :
    (engineCall E c >>= f) w =
      match E.throws w.calls c with
      | some e => (Except.error e, { w with calls := w.calls ++ [c] })
      | none => f () { w with calls := w.calls ++ [c] } := by
  show Prog.bind (engineCall E c) f w = _
  unfold Prog.bind engineCall
  cases E.throws w.calls c <;> rfl

theorem RegisterImage_bind {β : Type} (E : Engine) (f : Int → Prog β) (w : World) :
    (RegisterImage E >>= f) w =
      match E.throws w.calls Call.RegisterImage with
      | some e => (Except.error e, { w with calls := w.calls ++ [Call.RegisterImage] })
      | none =>
        f (E.RegisterImage w.calls) { w with calls := w.calls ++ [Call.RegisterImage] } := by
  show Prog.bind (RegisterImage E) f w = _
  unfold Prog.bind RegisterImage
  cases E.throws w.calls Call.RegisterImage <;> rfl

theorem GetCurrentResult_bind {β : Type} (E : Engine) (f : DocResult → Prog β) (w : World) :
    (GetCurrentResult E >>= f) w =
      match E.throws w.calls Call.GetCurrentResult with
      | some e => (Except.error e, { w with calls := w.calls ++ [Call.GetCurrentResult] })
      | none => f (E.GetCurrentResult w.calls)
          { w with calls := w.calls ++ [Call.GetCurrentResult] } := by
  show Prog.bind (GetCurrentResult E) f w = _
  unfold Prog.bind GetCurrentResult
  cases E.throws w.calls Call.GetCurrentResult <;> rfl

theorem mask_eq (argc : Int) (argv : Nat → CStr) (hargc : argc = 3 ∨ argc = 4) :
    (if argc ≥ 4 then argv 3 else "*".toList) = (if argc = 4 then argv 3 else "*".toList) := by
  rcases hargc with h | h <;> simp [h]

theorem tryBlock_quiet (E : Engine) (signature : CStr) (argc : Int) (argv : Nat → CStr)
    (hargc : argc = 3 ∨ argc = 4)
    (hquiet : E.firstThrow [] (callSequence E signature argc argv) = none) :
    tryBlock E signature argc argv ⟨[], []⟩ =
      OutputRecognitionResult (currentResult E signature argc argv)
        ⟨[], callSequence E signature argc argv⟩ := by
  simp only [tryBlock, mask_eq argc argv hargc, engineCall_bind, RegisterImage_bind,
    GetCurrentResult_bind, currentResult]
  simp only [callSequence, Engine.firstThrow, List.nil_append, List.cons_append] at hquiet ⊢
  repeat' split at hquiet
  all_goals try (cases hquiet; done)
  simp_all


theorem tryBlock_throw (E : Engine) (signature : CStr) (argc : Int) (argv : Nat → CStr)
    (hargc : argc = 3 ∨ argc = 4) (e : CStr)
    (hthrow : E.firstThrow [] (callSequence E signature argc argv) = some e) :
    ∃ k, tryBlock E signature argc argv ⟨[], []⟩ =
      (Except.error e, ⟨[], (callSequence E signature argc argv).take k⟩) := by
  simp only [tryBlock, mask_eq argc argv hargc, engineCall_bind, RegisterImage_bind,
    GetCurrentResult_bind]
  simp only [callSequence, Engine.firstThrow, List.nil_append, List.cons_append] at hthrow ⊢
  repeat' split at hthrow
  all_goals first
    | exact Option.noConfusion hthrow
    | (refine ⟨1, ?_⟩; simp_all; done)
    | (refine ⟨2, ?_⟩; simp_all; done)
    | (refine ⟨3, ?_⟩; simp_all; done)
    | (refine ⟨4, ?_⟩; simp_all; done)
    | (refine ⟨5, ?_⟩; simp_all; done)
    | (refine ⟨6, ?_⟩; simp_all; done)
    | (refine ⟨7, ?_⟩; simp_all; done)
    | (refine ⟨8, ?_⟩; simp_all; done)
    | (refine ⟨9, ?_⟩; simp_all; done)
    | (refine ⟨10, ?_⟩; simp_all; done)
    | (refine ⟨11, ?_⟩; simp_all)

theorem fields_of_no_throw (fs : List TextField) (h : fieldsThrow fs = none) :
    ∃ fields : List (CStr × CStr), fs = fields.map TextField.ofPair := by
  induction fs with
  | nil => exact ⟨[], rfl⟩
  | cons f rest ih =>
    obtain ⟨key, value⟩ := f
    cases value with
    | error e => simp [fieldsThrow] at h
    | ok v =>
      cases key with
      | error e => simp [fieldsThrow] at h
      | ok k =>
        simp only [fieldsThrow] at h
        obtain ⟨fields, hfields⟩ := ih h
        exact ⟨(k, v) :: fields, by simp [hfields, TextField.ofPair]⟩

theorem loop_throw (fs : List TextField) (e : CStr) (h : fieldsThrow fs = some e) :
    ∃ (fields : List (CStr × CStr)) (failing : TextField) (rest : List TextField),
      fs = fields.map TextField.ofPair ++ failing :: rest ∧
      (failing.GetFirstString = Except.error e ∨
        ∃ value : CStr, failing.GetFirstString = Except.ok value ∧
          failing.GetKey = Except.error e) ∧
      ∀ w : World, OutputRecognitionResult.loop fs w =
        (Except.error e, { w with stdout := w.stdout ++ (fields.map jsonMember).flatten }) := by
  induction fs with
  | nil => simp [fieldsThrow] at h
  | cons f rest ih =>
    obtain ⟨key, value⟩ := f
    cases value with
    | error e1 =>
      simp only [fieldsThrow, Option.some.injEq] at h
      subst h
      refine ⟨[], ⟨key, Except.error e1⟩, rest, by simp, Or.inl rfl, fun w => ?_⟩
      simp [OutputRecognitionResult.loop, read_error_bind]
    | ok v =>
      cases key with
      | error e1 =>
        simp only [fieldsThrow, Option.some.injEq] at h
        subst h
        refine ⟨[], ⟨Except.error e1, Except.ok v⟩, rest, by simp, Or.inr ⟨v, rfl, rfl⟩,
          fun w => ?_⟩
        simp [OutputRecognitionResult.loop, read_error_bind, read_ok_bind]
      | ok k =>
        simp only [fieldsThrow] at h
        obtain ⟨fields, failing, rest1, hsplit, hfail, hrun⟩ := ih h
        refine ⟨(k, v) :: fields, failing, rest1, by simp [hsplit, TextField.ofPair], hfail,
          fun w => ?_⟩
        simp only [OutputRecognitionResult.loop, read_ok_bind, printf_bind, hrun]
        simp [jsonMember, escaped_value_eq]

theorem output_calls (r : DocResult) (w : World) :
    (OutputRecognitionResult r w).2.calls = w.calls := by
  cases hdocs : r.Documents with
  | nil => rw [output_nil r hdocs]; rfl
  | cons doc later =>
    cases htype : doc.GetAttribute "type".toList with
    | error e =>
      rw [output_cons r doc later hdocs]
      simp only [htype, read_error_bind]
    | ok type =>
      cases hf : fieldsThrow doc.TextFields with
      | none =>
        obtain ⟨fields, hfields⟩ := fields_of_no_throw _ hf
        rw [output_of_reads r doc later type fields w hdocs htype hfields]
      | some e =>
        obtain ⟨fields, _, _, _, _, hrun⟩ := loop_throw _ e hf
        rw [output_cons r doc later hdocs]
        simp only [htype, read_ok_bind, printf_bind]
        rw [bind_of_error _ _ _ _ _ (hrun _)]

theorem firstThrow_of_quiet (E : Engine) (hquiet : ∀ h c, E.throws h c = none)
    (cs : List Call) : ∀ h : List Call, E.firstThrow h cs = none := by
  induction cs with
  | nil => intro h; rfl
  | cons c rest ih => intro h; simp [Engine.firstThrow, hquiet, ih]

theorem main_valid (E : Engine) (signature : CStr) (argc : Int) (argv : Nat → CStr)
    (hargc : argc = 3 ∨ argc = 4) :
    main E signature argc argv =
      match tryBlock E signature argc argv ⟨[], []⟩ with
      | (Except.ok _, w) => ⟨0, w.stdout, w.calls⟩
      | (Except.error e, w) => ⟨-1, w.stdout ++ exceptionLine e, w.calls⟩ := by
  have hcond : ¬ (argc ≠ 3 ∧ argc ≠ 4) := by
    rcases hargc with h | h <;> simp [h]
  simp only [main, hcond, if_false]
  rfl

theorem main_of_ok (E : Engine) (signature : CStr) (argc : Int) (argv : Nat → CStr)
    (hargc : argc = 3 ∨ argc = 4) (w : World)
    (h : tryBlock E signature argc argv ⟨[], []⟩ = (Except.ok (), w)) :
    main E signature argc argv = ⟨0, w.stdout, w.calls⟩ := by
  rw [main_valid E signature argc argv hargc, h]

theorem main_of_error (E : Engine) (signature : CStr) (argc : Int) (argv : Nat → CStr)
    (hargc : argc = 3 ∨ argc = 4) (e : CStr) (w : World)
    (h : tryBlock E signature argc argv ⟨[], []⟩ = (Except.error e, w)) :
    main E signature argc argv = ⟨-1, w.stdout ++ exceptionLine e, w.calls⟩ := by
  rw [main_valid E signature argc argv hargc, h]

theorem main_calls (E : Engine) (signature : CStr) (argc : Int) (argv : Nat → CStr)
    (hargc : argc = 3 ∨ argc = 4) :
    (main E signature argc argv).calls = (tryBlock E signature argc argv ⟨[], []⟩).2.calls := by
  rw [main_valid E signature argc argv hargc]
  split <;> simp_all

theorem output_of_no_throw (r : DocResult) (h : r.readThrow = none) :
    (r.Documents = [] ∧
        ∀ w : World, OutputRecognitionResult r w =
          (Except.ok (), { w with stdout := w.stdout ++ "\x7b\x7d\n".toList })) ∨
      ∃ (doc : Document) (later : List Document) (type : CStr) (fields : List (CStr × CStr)),
        r.Documents = doc :: later ∧
        doc.GetAttribute "type".toList = Except.ok type ∧
        doc.TextFields = fields.map TextField.ofPair ∧
        ∀ w : World, OutputRecognitionResult r w =
          (Except.ok (), { w with stdout := w.stdout ++
            (jsonHeader type ++ (fields.map jsonMember).flatten ++ "\x7d\n".toList) }) := by
  cases hdocs : r.Documents with
  | nil =>
    left
    exact ⟨rfl, fun w => output_no_documents_aux r w hdocs⟩
  | cons doc later =>
    right
    cases htype : doc.GetAttribute "type".toList with
    | error e =>
      simp only [DocResult.readThrow, hdocs, htype] at h
      exact Option.noConfusion h
    | ok type =>
      simp only [DocResult.readThrow, hdocs, htype] at h
      obtain ⟨fields, hfields⟩ := fields_of_no_throw _ h
      exact ⟨doc, later, type, fields, rfl, htype, hfields,
        fun w => output_of_reads r doc later type fields w hdocs htype hfields⟩

theorem output_of_throw (r : DocResult) (e : CStr) (h : r.readThrow = some e) :
    ∃ (doc : Document) (later : List Document), r.Documents = doc :: later ∧
      ((doc.GetAttribute "type".toList = Except.error e ∧
          ∀ w : World, OutputRecognitionResult r w = (Except.error e, w)) ∨
        ∃ (type : CStr) (fields : List (CStr × CStr)) (failing : TextField)
          (rest : List TextField),
          doc.GetAttribute "type".toList = Except.ok type ∧
          doc.TextFields = fields.map TextField.ofPair ++ failing :: rest ∧
          (failing.GetFirstString = Except.error e ∨
            ∃ value : CStr, failing.GetFirstString = Except.ok value ∧
              failing.GetKey = Except.error e) ∧
          ∀ w : World, OutputRecognitionResult r w =
            (Except.error e, { w with stdout := w.stdout ++
              (jsonHeader type ++ (fields.map jsonMember).flatten) })) := by
  cases hdocs : r.Documents with
  | nil => simp [DocResult.readThrow, hdocs] at h
  | cons doc later =>
    refine ⟨doc, later, rfl, ?_⟩
    cases htype : doc.GetAttribute "type".toList with
    | error e1 =>
      simp only [DocResult.readThrow, hdocs, htype, Option.some.injEq] at h
      subst h
      left
      refine ⟨rfl, fun w => ?_⟩
      rw [output_cons r doc later hdocs]
      simp only [htype, read_error_bind]
    | ok type =>
      simp only [DocResult.readThrow, hdocs, htype] at h
      obtain ⟨fields, failing, rest, hsplit, hfail, hrun⟩ := loop_throw _ e h
      right
      refine ⟨type, fields, failing, rest, rfl, hsplit, hfail, fun w => ?_⟩
      rw [output_cons r doc later hdocs]
      simp only [htype, read_ok_bind, printf_bind]
      rw [bind_of_error _ _ _ _ _ (hrun _)]
      simp [jsonHeader]

/-! ## The run of main, by the first exception -/

theorem main_of_call_throw (E : Engine) (signature : CStr) (argc : Int) (argv : Nat → CStr)
    (hargc : argc = 3 ∨ argc = 4) (e : CStr)
    (hthrow : E.firstThrow [] (callSequence E signature argc argv) = some e) :
    (main E signature argc argv).status = -1 ∧
      (main E signature argc argv).stdout = exceptionLine e := by
  obtain ⟨k, hk⟩ := tryBlock_throw E signature argc argv hargc e hthrow
  rw [main_of_error E signature argc argv hargc e _ hk]
  simp

theorem main_of_read_throw (E : Engine) (signature : CStr) (argc : Int) (argv : Nat → CStr)
    (hargc : argc = 3 ∨ argc = 4) (e : CStr)
    (hquiet : E.firstThrow [] (callSequence E signature argc argv) = none)
    (hread : (currentResult E signature argc argv).readThrow = some e) :
    (main E signature argc argv).status = -1 ∧
      ∃ (doc : Document) (later : List Document),
        (currentResult E signature argc argv).Documents = doc :: later ∧
        ((doc.GetAttribute "type".toList = Except.error e ∧
            (main E signature argc argv).stdout = exceptionLine e) ∨
          ∃ (type : CStr) (fields : List (CStr × CStr)) (failing : TextField)
            (rest : List TextField),
            doc.GetAttribute "type".toList = Except.ok type ∧
            doc.TextFields = fields.map TextField.ofPair ++ failing :: rest ∧
            (failing.GetFirstString = Except.error e ∨
              ∃ value : CStr, failing.GetFirstString = Except.ok value ∧
                failing.GetKey = Except.error e) ∧
            (main E signature argc argv).stdout =
              jsonHeader type ++ (fields.map jsonMember).flatten ++ exceptionLine e) := by
  have hrun := tryBlock_quiet E signature argc argv hargc hquiet
  obtain ⟨doc, later, hdocs, hcase⟩ := output_of_throw _ e hread
  rcases hcase with
    ⟨htype, hout⟩ | ⟨type, fields, failing, rest, htype, hsplit, hfail, hout⟩
  · rw [hout] at hrun
    rw [main_of_error E signature argc argv hargc e _ hrun]
    exact ⟨rfl, doc, later, hdocs, Or.inl ⟨htype, by simp⟩⟩
  · rw [hout] at hrun
    rw [main_of_error E signature argc argv hargc e _ hrun]
    exact ⟨rfl, doc, later, hdocs,
      Or.inr ⟨type, fields, failing, rest, htype, hsplit, hfail, by simp⟩⟩

theorem main_of_no_throw (E : Engine) (signature : CStr) (argc : Int) (argv : Nat → CStr)
    (hargc : argc = 3 ∨ argc = 4)
    (hquiet : E.firstThrow [] (callSequence E signature argc argv) = none)
    (hread : (currentResult E signature argc argv).readThrow = none) :
    (main E signature argc argv).status = 0 ∧
      OutputRecognitionResult (currentResult E signature argc argv) ⟨[], []⟩ =
        (Except.ok (), ⟨(main E signature argc argv).stdout, []⟩) ∧
      (((currentResult E signature argc argv).Documents = [] ∧
          (main E signature argc argv).stdout = "\x7b\x7d\n".toList) ∨
        ∃ (doc : Document) (later : List Document) (type : CStr)
          (fields : List (CStr × CStr)),
          (currentResult E signature argc argv).Documents = doc :: later ∧
          doc.GetAttribute "type".toList = Except.ok type ∧
          doc.TextFields = fields.map TextField.ofPair ∧
          (main E signature argc argv).stdout =
            jsonHeader type ++ (fields.map jsonMember).flatten ++ "\x7d\n".toList) := by
  have hrun := tryBlock_quiet E signature argc argv hargc hquiet
  rcases output_of_no_throw _ hread with
    ⟨hdocs, hout⟩ | ⟨doc, later, type, fields, hdocs, htype, hfields, hout⟩
  · rw [hout] at hrun
    rw [main_of_ok E signature argc argv hargc _ hrun, hout]
    exact ⟨rfl, rfl, Or.inl ⟨hdocs, by simp⟩⟩
  · rw [hout] at hrun
    rw [main_of_ok E signature argc argv hargc _ hrun, hout]
    exact ⟨rfl, rfl, Or.inr ⟨doc, later, type, fields, hdocs, htype, hfields, by simp⟩⟩

theorem main_of_bad_argc (E : Engine) (signature : CStr) (argc : Int) (argv : Nat → CStr)
    (hargc : argc ≠ 3 ∧ argc ≠ 4) :
    main E signature argc argv =
      ⟨-1, "Version ".toList ++ E.GetVersion ++ ". Usage: ".toList ++ argv 0 ++
        " <image_path> <bundle_zip_path> [document_types]\n".toList, [Call.GetVersion]⟩ := by
  unfold main
  rw [if_pos hargc]
  rfl

/-! ## The claims on main -/

/-- C4, refuted as stated: the engine makes every call of `main` succeed and
hands out a result whose first document has type `passport`, a first field
name=JOHN, and a second field whose first OCR string throws `bad field` when
read. The run returns -1 and prints the exception line, but after the header
and the first member, which were already written: standard output holds an
unclosed JSON object before the exception message. -/
theorem unclosed_json_counterexample :
    raised (quietEngine ⟨[brokenDoc]⟩) "signature".toList 3
        (argvOf ["docengine_cli", "scan.png", "bundle.se"]) = some "bad field".toList ∧
      (main (quietEngine ⟨[brokenDoc]⟩) "signature".toList 3
        (argvOf ["docengine_cli", "scan.png", "bundle.se"])).status = -1 ∧
      (main (quietEngine ⟨[brokenDoc]⟩) "signature".toList 3
        (argvOf ["docengine_cli", "scan.png", "bundle.se"])).stdout =
          "\x7b\"DOCTYPE\": \"passport\",\"name\": \"JOHN\"Exception thrown: bad field\n".toList ∧
      (main (quietEngine ⟨[brokenDoc]⟩) "signature".toList 3
        (argvOf ["docengine_cli", "scan.png", "bundle.se"])).stdout ≠
          exceptionLine "bad field".toList := by
  decide

/-- C4, amended: in a run with three or four arguments in which an engine call
throws with message `msg`, `main` returns -1 and the exception line
`Exception thrown: msg` ends standard output. When the throwing call is one of
the calls of `main` itself (`Create` to `GetCurrentResult`) or the read of the
first document's `type` attribute, standard output holds that line only. When
it is a read of a text field, the text fields split into the fields before the
failing one, all read in full, the failing field, whose first OCR string or,
after it, whose key throws `msg`, and the fields after it; the line then comes
after the text already written: the header with the type and the members of
exactly the fields before the failing one, in order, without the closing
brace. -/
theorem main_exception (E : Engine) (signature : CStr) (argc : Int) (argv : Nat → CStr)
    (hargc : argc = 3 ∨ argc = 4) (msg : CStr)
    (hraised : raised E signature argc argv = some msg) :
    (main E signature argc argv).status = -1 ∧
      (∃ before : CStr, (main E signature argc argv).stdout = before ++ exceptionLine msg) ∧
      (E.firstThrow [] (callSequence E signature argc argv) = some msg →
        (main E signature argc argv).stdout = exceptionLine msg) ∧
      (E.firstThrow [] (callSequence E signature argc argv) = none →
        ∃ (doc : Document) (later : List Document),
          (currentResult E signature argc argv).Documents = doc :: later ∧
          ((doc.GetAttribute "type".toList = Except.error msg ∧
              (main E signature argc argv).stdout = exceptionLine msg) ∨
            ∃ (type : CStr) (fields : List (CStr × CStr)) (failing : TextField)
              (rest : List TextField),
              doc.GetAttribute "type".toList = Except.ok type ∧
              doc.TextFields = fields.map TextField.ofPair ++ failing :: rest ∧
              (failing.GetFirstString = Except.error msg ∨
                ∃ value : CStr, failing.GetFirstString = Except.ok value ∧
                  failing.GetKey = Except.error msg) ∧
              (main E signature argc argv).stdout =
                "\x7b\"DOCTYPE\": \"".toList ++ type ++ "\"".toList ++
                  (fields.map (fun kv => ",\"".toList ++ kv.1 ++ "\": \"".toList ++
                    escapeQuotes kv.2 ++ "\"".toList)).flatten ++
                  exceptionLine msg)) := by
  cases hcalls : E.firstThrow [] (callSequence E signature argc argv) with
  | some e =>
    have he : e = msg := by simpa [raised, hcalls] using hraised
    subst he
    obtain ⟨hstatus, hout⟩ := main_of_call_throw E signature argc argv hargc e hcalls
    exact ⟨hstatus, ⟨[], by simp [hout]⟩, fun _ => hout, fun h => Option.noConfusion h⟩
  | none =>
    have hread : (currentResult E signature argc argv).readThrow = some msg := by
      simpa [raised, hcalls] using hraised
    obtain ⟨hstatus, doc, later, hdocs, hcase⟩ :=
      main_of_read_throw E signature argc argv hargc msg hcalls hread
    refine ⟨hstatus, ?_, fun h => Option.noConfusion h, fun _ => ⟨doc, later, hdocs, ?_⟩⟩
    · rcases hcase with ⟨_, hout⟩ | ⟨type, fields, _, _, _, _, _, hout⟩
      · exact ⟨[], by simp [hout]⟩
      · exact ⟨_, hout⟩
    · rcases hcase with
        ⟨htype, hout⟩ | ⟨type, fields, failing, rest, htype, hsplit, hfail, hout⟩
      · exact Or.inl ⟨htype, hout⟩
      · exact Or.inr ⟨type, fields, failing, rest, htype, hsplit, hfail, hout⟩

/-- C4 amended, on two runs. An engine whose `Create` rejects the bundle: exit
-1 and the exception line alone on standard output. An engine that makes every
call succeed and hands out `brokenDoc`, whose second field throws: exit -1, and
the statement leaves one standard output only, the header, the member of the
first field and the exception line. -/
theorem main_exception_witness :
    ((main (rejectingEngine ⟨[passportDoc]⟩) "signature".toList 3
          (argvOf ["docengine_cli", "scan.png", "missing.se"])).status = -1 ∧
        (main (rejectingEngine ⟨[passportDoc]⟩) "signature".toList 3
          (argvOf ["docengine_cli", "scan.png", "missing.se"])).stdout =
            "Exception thrown: bad bundle\n".toList) ∧
      ((main (quietEngine ⟨[brokenDoc]⟩) "signature".toList 3
          (argvOf ["docengine_cli", "scan.png", "bundle.se"])).status = -1 ∧
        (main (quietEngine ⟨[brokenDoc]⟩) "signature".toList 3
          (argvOf ["docengine_cli", "scan.png", "bundle.se"])).stdout =
            ("\x7b\"DOCTYPE\": \"passport\",\"name\": \"JOHN\"" ++
              "Exception thrown: bad field\n").toList) := by
  refine ⟨⟨(main_exception (rejectingEngine ⟨[passportDoc]⟩) "signature".toList 3
      (argvOf ["docengine_cli", "scan.png", "missing.se"]) (Or.inl rfl) "bad bundle".toList
      (by decide)).1,
    (main_exception (rejectingEngine ⟨[passportDoc]⟩) "signature".toList 3
      (argvOf ["docengine_cli", "scan.png", "missing.se"]) (Or.inl rfl) "bad bundle".toList
      (by decide)).2.2.1 (by decide)⟩,
    (main_exception (quietEngine ⟨[brokenDoc]⟩) "signature".toList 3
      (argvOf ["docengine_cli", "scan.png", "bundle.se"]) (Or.inl rfl) "bad field".toList
      (by decide)).1, ?_⟩
  obtain ⟨doc, later, hdocs, hcase⟩ :=
    (main_exception (quietEngine ⟨[brokenDoc]⟩) "signature".toList 3
      (argvOf ["docengine_cli", "scan.png", "bundle.se"]) (Or.inl rfl) "bad field".toList
      (by decide)).2.2.2 (by decide)
  have hd : [brokenDoc] = doc :: later := hdocs
  injection hd with hdoc hlater
  subst hdoc
  rcases hcase with ⟨htype, _⟩ | ⟨type, fields, failing, rest, htype, hsplit, hfail, hout⟩
  · have habs : (Except.ok "passport".toList : Except CStr CStr) =
        Except.error "bad field".toList := htype
    cases habs
  · have htype1 : (Except.ok "passport".toList : Except CStr CStr) = Except.ok type := htype
    injection htype1 with htype2
    subst htype2
    have hsplit1 : [TextField.ofPair ("name".toList, "JOHN".toList),
        (⟨Except.ok "number".toList, Except.error "bad field".toList⟩ : TextField)] =
        fields.map TextField.ofPair ++ failing :: rest := hsplit
    cases fields with
    | nil =>
      simp only [List.map_nil, List.nil_append, List.cons.injEq] at hsplit1
      obtain ⟨hf, _⟩ := hsplit1
      subst hf
      rcases hfail with hv | ⟨v, _, hk⟩
      · cases hv
      · cases hk
    | cons kv more =>
      cases more with
      | nil =>
        simp only [List.map_cons, List.map_nil, List.cons_append, List.nil_append,
          List.cons.injEq] at hsplit1
        obtain ⟨hkv, _⟩ := hsplit1
        have hk : (Except.ok "name".toList : Except CStr CStr) = Except.ok kv.1 :=
          congrArg TextField.GetKey hkv
        have hv : (Except.ok "JOHN".toList : Except CStr CStr) = Except.ok kv.2 :=
          congrArg TextField.GetFirstString hkv
        injection hk with hk
        injection hv with hv
        rw [hout]
        simp only [List.map_cons, List.map_nil, ← hk, ← hv]
        decide
      | cons kv2 more2 =>
        simp only [List.map_cons, List.cons_append, List.cons.injEq] at hsplit1
        obtain ⟨_, hkv2, _⟩ := hsplit1
        have hv : (Except.error "bad field".toList : Except CStr CStr) = Except.ok kv2.2 :=
          congrArg TextField.GetFirstString hkv2
        cases hv

/-- C5: for every argument count other than 3 and 4, `main` returns -1, standard
output is exactly the usage line with the engine version and `argv[0]`, and the
only engine function called is the static version query: no engine, settings,
session or image object is created. -/
theorem main_usage (E : Engine) (signature : CStr) (argc : Int) (argv : Nat → CStr)
    (hargc : argc ≠ 3 ∧ argc ≠ 4) :
    (main E signature argc argv).status = -1 ∧
      (main E signature argc argv).stdout =
        "Version ".toList ++ E.GetVersion ++ ". Usage: ".toList ++ argv 0 ++
          " <image_path> <bundle_zip_path> [document_types]\n".toList ∧
      (main E signature argc argv).calls = [Call.GetVersion] := by
  rw [main_of_bad_argc E signature argc argv hargc]
  exact ⟨rfl, rfl, rfl⟩

/-- C5 with one user argument: status -1 and the usage line. -/
theorem main_usage_witness :
    (main (quietEngine ⟨[passportDoc]⟩) "signature".toList 2
        (argvOf ["docengine_cli", "scan.png"])).status = -1 ∧
      (main (quietEngine ⟨[passportDoc]⟩) "signature".toList 2
        (argvOf ["docengine_cli", "scan.png"])).stdout =
          ("Version 2.1.0. Usage: docengine_cli <image_path> <bundle_zip_path> " ++
            "[document_types]\n").toList ∧
      (main (quietEngine ⟨[passportDoc]⟩) "signature".toList 2
        (argvOf ["docengine_cli", "scan.png"])).calls = [Call.GetVersion] :=
  main_usage (quietEngine ⟨[passportDoc]⟩) "signature".toList 2
    (argvOf ["docengine_cli", "scan.png"]) (by decide)

/-- C8: `main` returns 0 exactly when the argument count is 3 or 4 and no engine
call throws; then standard output is exactly what the serializer writes for the
session's current result, one of the two shapes (the empty object, or the header
with the type, the members of all text fields and the closing brace, each with
the final newline); in every other case `main` returns -1. -/
theorem main_status (E : Engine) (signature : CStr) (argc : Int) (argv : Nat → CStr) :
    ((main E signature argc argv).status = 0 ↔
        (argc = 3 ∨ argc = 4) ∧ raised E signature argc argv = none) ∧
      ((main E signature argc argv).status = 0 →
        OutputRecognitionResult (currentResult E signature argc argv) ⟨[], []⟩ =
            (Except.ok (), ⟨(main E signature argc argv).stdout, []⟩) ∧
          (((currentResult E signature argc argv).Documents = [] ∧
              (main E signature argc argv).stdout = "\x7b\x7d\n".toList) ∨
            ∃ (doc : Document) (later : List Document) (type : CStr)
              (fields : List (CStr × CStr)),
              (currentResult E signature argc argv).Documents = doc :: later ∧
              doc.GetAttribute "type".toList = Except.ok type ∧
              doc.TextFields = fields.map TextField.ofPair ∧
              (main E signature argc argv).stdout =
                "\x7b\"DOCTYPE\": \"".toList ++ type ++ "\"".toList ++
                  (fields.map (fun kv => ",\"".toList ++ kv.1 ++ "\": \"".toList ++
                    escapeQuotes kv.2 ++ "\"".toList)).flatten ++ "\x7d\n".toList)) ∧
      ((main E signature argc argv).status ≠ 0 → (main E signature argc argv).status = -1) := by
  by_cases hargc : argc = 3 ∨ argc = 4
  · cases hcalls : E.firstThrow [] (callSequence E signature argc argv) with
    | some e =>
      have hstatus := (main_of_call_throw E signature argc argv hargc e hcalls).1
      have hraised : raised E signature argc argv = some e := by simp [raised, hcalls]
      simp [hstatus, hraised]
    | none =>
      cases hread : (currentResult E signature argc argv).readThrow with
      | some e =>
        have hstatus := (main_of_read_throw E signature argc argv hargc e hcalls hread).1
        have hraised : raised E signature argc argv = some e := by simp [raised, hcalls, hread]
        simp [hstatus, hraised]
      | none =>
        obtain ⟨hstatus, hout, hshape⟩ :=
          main_of_no_throw E signature argc argv hargc hcalls hread
        have hraised : raised E signature argc argv = none := by simp [raised, hcalls, hread]
        exact ⟨⟨fun _ => ⟨hargc, hraised⟩, fun _ => hstatus⟩, fun _ => ⟨hout, hshape⟩,
          fun h => absurd hstatus h⟩
  · have hne : argc ≠ 3 ∧ argc ≠ 4 := by
      constructor
      · exact fun h => hargc (Or.inl h)
      · exact fun h => hargc (Or.inr h)
    have hstatus : (main E signature argc argv).status = -1 := by
      rw [main_of_bad_argc E signature argc argv hne]
    simp [hstatus, hargc]

/-- C8 on a run with two user arguments and an engine that never throws: exit
status 0 and the serialized passport on standard output. -/
theorem main_status_witness :
    (main (quietEngine ⟨[passportDoc]⟩) "signature".toList 3
        (argvOf ["docengine_cli", "scan.png", "bundle.se"])).status = 0 ∧
      OutputRecognitionResult ⟨[passportDoc]⟩ ⟨[], []⟩ =
        (Except.ok (), ⟨(main (quietEngine ⟨[passportDoc]⟩) "signature".toList 3
          (argvOf ["docengine_cli", "scan.png", "bundle.se"])).stdout, []⟩) :=
  ⟨(main_status (quietEngine ⟨[passportDoc]⟩) "signature".toList 3
      (argvOf ["docengine_cli", "scan.png", "bundle.se"])).1.mpr ⟨Or.inl rfl, by decide⟩,
    ((main_status (quietEngine ⟨[passportDoc]⟩) "signature".toList 3
      (argvOf ["docengine_cli", "scan.png", "bundle.se"])).2.1 (by decide)).1⟩

/-- C9: with three or four arguments and an engine none of whose calls throws,
the engine calls `main` makes are exactly, in this order: `Create(argv[2], true)`,
`CreateSessionSettings`, `SetCurrentMode("universal")`,
`AddEnabledDocumentTypes(mask)` with mask `argv[3]` for four arguments and `*`
for three, `SpawnSession`, `CreateProcessingSettings`, `Image::FromFile(argv[1])`,
`RegisterImage`, `SetCurrentSourceID(id)` with the identifier `RegisterImage`
returned, `Process`, `GetCurrentResult`. -/
theorem main_call_sequence (E : Engine) (signature : CStr) (argc : Int) (argv : Nat → CStr)
    (hargc : argc = 3 ∨ argc = 4) (hquiet : ∀ h c, E.throws h c = none) :
    (main E signature argc argv).calls =
      [Call.Create (argv 2) true,
        Call.CreateSessionSettings,
        Call.SetCurrentMode "universal".toList,
        Call.AddEnabledDocumentTypes (if argc = 4 then argv 3 else "*".toList),
        Call.SpawnSession signature,
        Call.CreateProcessingSettings,
        Call.FromFile (argv 1),
        Call.RegisterImage,
        Call.SetCurrentSourceID (E.RegisterImage
          [Call.Create (argv 2) true, Call.CreateSessionSettings,
            Call.SetCurrentMode "universal".toList,
            Call.AddEnabledDocumentTypes (if argc = 4 then argv 3 else "*".toList),
            Call.SpawnSession signature, Call.CreateProcessingSettings,
            Call.FromFile (argv 1)]),
        Call.Process,
        Call.GetCurrentResult] := by
  rw [main_calls E signature argc argv hargc,
    tryBlock_quiet E signature argc argv hargc (firstThrow_of_quiet E hquiet _ _),
    output_calls]
  rfl

/-- C9 with a document-type mask: the eleven calls, the mask passed on and the
source identifier 7 that `RegisterImage` returned. -/
theorem main_call_sequence_witness :
    (main (quietEngine ⟨[passportDoc]⟩) "signature".toList 4
        (argvOf ["docengine_cli", "scan.png", "bundle.se", "rus.*"])).calls =
      [Call.Create "bundle.se".toList true, Call.CreateSessionSettings,
        Call.SetCurrentMode "universal".toList, Call.AddEnabledDocumentTypes "rus.*".toList,
        Call.SpawnSession "signature".toList, Call.CreateProcessingSettings,
        Call.FromFile "scan.png".toList, Call.RegisterImage, Call.SetCurrentSourceID 7,
        Call.Process, Call.GetCurrentResult] :=
  main_call_sequence (quietEngine ⟨[passportDoc]⟩) "signature".toList 4
    (argvOf ["docengine_cli", "scan.png", "bundle.se", "rus.*"]) (Or.inr rfl) (fun _ _ => rfl)

end DocEngineCli
